import Mathlib

/-!
Verification development for the retrieval and chunking core of the
`momory` memory-agent repository.

The TypeScript sources are shallowly embedded: JavaScript numbers are
modelled as real numbers (exact rationals where only field operations
occur), strings as `String`/`List Char`, fallible code as `Except`,
and the repository's `Result` success/failure type as an inductive.
Collaborator effects (embedding generation, store loads, configuration)
are passed to the retrieval orchestrator as explicit inputs.
-/

namespace Momory

/-- The repository's explicit success/failure result type
(`{ok: true, value}` / `{ok: false, error}` with helpers `success`, `failure`). -/
inductive Result (α : Type) (ε : Type) where
  | success (value : α)
  | failure (error : ε)
deriving Repr, DecidableEq

/- ===================== src/utils/vector.ts ===================== -/

/-- The accumulated dot product of the loop in `cosineSimilarity`
(`dotProduct += a[i] * b[i]`); with `a = b` it is the accumulated
squared magnitude (`magnitudeA += a[i] * a[i]`). -/
def dotList (a b : List ℝ) : ℝ := (List.zipWith (fun x y => x * y) a b).sum

/-- The message of the error thrown on a dimension mismatch. -/
def dimErrMsg (m n : Nat) : String :=
  "Vector dimensions must match: " ++ toString m ++ " !== " ++ toString n

/-- Model of `cosineSimilarity(a, b)` from `src/utils/vector.ts`.  The thrown
dimension-mismatch error is modelled as `Except.error`. -/
noncomputable def cosineSimilarity (a b : List ℝ) : Except String ℝ :=
  if a.length ≠ b.length then .error (dimErrMsg a.length b.length)
  else
    let dotProduct := dotList a b
    let magnitudeA := Real.sqrt (dotList a a)
    let magnitudeB := Real.sqrt (dotList b b)
    if magnitudeA = 0 ∨ magnitudeB = 0 then .ok 0
    else .ok (dotProduct / (magnitudeA * magnitudeB))

/-- An element of the `vectors` argument of `findTopSimilar`:
`{ id: string; vector: number[]; data?: unknown }`. -/
structure VectorEntry (α : Type) where
  id : String
  vector : List ℝ
  data : α

/-- An element of the result of `findTopSimilar`:
`{ id: string; similarity: number; data?: unknown }`. -/
structure ScoredEntry (α : Type) where
  id : String
  similarity : ℝ
  data : α

/-- The `vectors.map(...)` step of `findTopSimilar`; evaluation is
left-to-right, so the error of the first failing element propagates. -/
noncomputable def mapSimilarities (query : List ℝ) :
    List (VectorEntry α) → Except String (List (ScoredEntry α))
  | [] => .ok []
  | item :: rest =>
    match cosineSimilarity query item.vector with
    | .error e => .error e
    | .ok s =>
      match mapSimilarities query rest with
      | .error e => .error e
      | .ok tail => .ok (⟨item.id, s, item.data⟩ :: tail)

/-- The ordering of the comparator `(a, b) => b.similarity - a.similarity`:
`a` may stay before `b` exactly when `b.similarity ≤ a.similarity`.
`Array.prototype.sort` is a stable sort, modelled by `List.mergeSort`. -/
noncomputable def simDescLe (x y : ScoredEntry α) : Bool :=
  decide (y.similarity ≤ x.similarity)

/-- Model of `findTopSimilar(query, vectors, topK)` from `src/utils/vector.ts`. -/
noncomputable def findTopSimilar (query : List ℝ) (vectors : List (VectorEntry α))
    (topK : Nat) : Except String (List (ScoredEntry α)) :=
  match mapSimilarities query vectors with
  | .error e => .error e
  | .ok similarities => .ok ((similarities.mergeSort simDescLe).take topK)

/- Basic facts about `dotList`. -/

theorem dotList_nil (b : List ℝ) : dotList [] b = 0 := by
  simp [dotList]

theorem dotList_cons (x y : ℝ) (a b : List ℝ) :
    dotList (x :: a) (y :: b) = x * y + dotList a b := by
  simp [dotList]

theorem dotList_comm (a b : List ℝ) : dotList a b = dotList b a := by
  unfold dotList
  rw [List.zipWith_comm_of_comm]
  intro x y
  ring

theorem dotList_self_nonneg (a : List ℝ) : 0 ≤ dotList a a := by
  induction a with
  | nil => simp [dotList]
  | cons x as ih =>
    rw [dotList_cons]
    nlinarith [sq_nonneg x]

theorem dotList_eq_zero_left (a : List ℝ) (h : dotList a a = 0) (b : List ℝ) :
    dotList a b = 0 := by
  induction a generalizing b with
  | nil => simp [dotList]
  | cons x as ih =>
    rw [dotList_cons] at h
    have hx : x = 0 ∧ dotList as as = 0 := by
      constructor <;> nlinarith [sq_nonneg x, dotList_self_nonneg as]
    cases b with
    | nil => simp [dotList]
    | cons y bs =>
      rw [dotList_cons, hx.1, ih hx.2 bs]
      ring

theorem dotList_quad (a : List ℝ) : ∀ (b : List ℝ), a.length = b.length → ∀ t : ℝ,
    0 ≤ dotList a a + 2 * t * dotList a b + t ^ 2 * dotList b b := by
  induction a with
  | nil =>
    intro b hb t
    cases b with
    | nil => simp [dotList]
    | cons y bs => simp at hb
  | cons x as ih =>
    intro b hb t
    cases b with
    | nil => simp at hb
    | cons y bs =>
      simp only [List.length_cons, Nat.add_right_cancel_iff] at hb
      have h2 := ih bs hb t
      have key : dotList (x :: as) (x :: as) + 2 * t * dotList (x :: as) (y :: bs) +
          t ^ 2 * dotList (y :: bs) (y :: bs)
          = (x + t * y) ^ 2 +
            (dotList as as + 2 * t * dotList as bs + t ^ 2 * dotList bs bs) := by
        rw [dotList_cons, dotList_cons, dotList_cons]
        ring
      rw [key]
      nlinarith [sq_nonneg (x + t * y)]

/-- Cauchy–Schwarz for the loop-accumulated sums. -/
theorem dotList_sq_le (a b : List ℝ) (h : a.length = b.length) :
    dotList a b ^ 2 ≤ dotList a a * dotList b b := by
  by_cases hb : dotList b b = 0
  · have h2 : dotList a b = 0 := by
      rw [dotList_comm]
      exact dotList_eq_zero_left b hb a
    rw [h2, hb]
    simp
  · have hbpos : 0 < dotList b b :=
      lt_of_le_of_ne (dotList_self_nonneg b) (Ne.symm hb)
    have hq := dotList_quad a b h (-(dotList a b / dotList b b))
    have hkey : dotList a a + 2 * (-(dotList a b / dotList b b)) * dotList a b +
        (-(dotList a b / dotList b b)) ^ 2 * dotList b b
        = dotList a a - dotList a b ^ 2 / dotList b b := by
      field_simp
      ring
    rw [hkey] at hq
    have := (div_le_iff₀ hbpos).mp (by linarith : dotList a b ^ 2 / dotList b b ≤ dotList a a)
    linarith

/-- Once the length guard passes, `cosineSimilarity` reduces to the zero-magnitude
check followed by the quotient. -/
theorem cosineSimilarity_eq_of_len (a b : List ℝ) (h : a.length = b.length) :
    cosineSimilarity a b =
      if Real.sqrt (dotList a a) = 0 ∨ Real.sqrt (dotList b b) = 0 then .ok 0
      else .ok (dotList a b / (Real.sqrt (dotList a a) * Real.sqrt (dotList b b))) := by
  unfold cosineSimilarity
  rw [if_neg (by simp [h])]

theorem cosineSimilarity_ok_of_len (a b : List ℝ) (h : a.length = b.length) :
    ∃ r, cosineSimilarity a b = .ok r := by
  rw [cosineSimilarity_eq_of_len a b h]
  split
  · exact ⟨0, rfl⟩
  · exact ⟨_, rfl⟩

theorem abs_dotList_le (a b : List ℝ) (h : a.length = b.length) :
    |dotList a b| ≤ Real.sqrt (dotList a a) * Real.sqrt (dotList b b) := by
  have h1 := dotList_sq_le a b h
  have h2 : |dotList a b| = Real.sqrt (dotList a b ^ 2) := (Real.sqrt_sq_eq_abs _).symm
  rw [h2, ← Real.sqrt_mul (dotList_self_nonneg a)]
  exact Real.sqrt_le_sqrt h1

theorem dotList_self_pos (a : List ℝ) (h : ∃ x ∈ a, x ≠ 0) : 0 < dotList a a := by
  induction a with
  | nil => simp at h
  | cons y as ih =>
    rw [dotList_cons]
    obtain ⟨x, hx, hxne⟩ := h
    rcases List.mem_cons.mp hx with h1 | h1
    · subst h1
      have hp : 0 < x * x := mul_self_pos.mpr hxne
      nlinarith [dotList_self_nonneg as]
    · have := ih ⟨x, h1, hxne⟩
      nlinarith [sq_nonneg y]

/-- C5: `cosineSimilarity` fails with a dimension-mismatch error exactly when the
two lengths differ; for equal-length vectors it returns a value in [-1, 1], equal
to dot(a,b)/(‖a‖·‖b‖) when both magnitudes are non-zero and to 0 when either
magnitude is zero; it is symmetric in its arguments; and the similarity of a
non-zero vector with itself is exactly 1. -/
theorem cosineSimilarity_spec :
    (∀ a b : List ℝ, (∃ e, cosineSimilarity a b = .error e) ↔ a.length ≠ b.length) ∧
    (∀ a b : List ℝ, a.length = b.length →
      ∃ r, cosineSimilarity a b = .ok r ∧ -1 ≤ r ∧ r ≤ 1) ∧
    (∀ a b : List ℝ, a.length = b.length →
      Real.sqrt (dotList a a) ≠ 0 → Real.sqrt (dotList b b) ≠ 0 →
      cosineSimilarity a b =
        .ok (dotList a b / (Real.sqrt (dotList a a) * Real.sqrt (dotList b b)))) ∧
    (∀ a b : List ℝ, a.length = b.length →
      (Real.sqrt (dotList a a) = 0 ∨ Real.sqrt (dotList b b) = 0) →
      cosineSimilarity a b = .ok 0) ∧
    (∀ a b : List ℝ, a.length = b.length → cosineSimilarity a b = cosineSimilarity b a) ∧
    (∀ a : List ℝ, (∃ x ∈ a, x ≠ 0) → cosineSimilarity a a = .ok 1) := by
  have hval := cosineSimilarity_eq_of_len
  refine ⟨?_, ?_, ?_, ?_, ?_, ?_⟩
  · intro a b
    constructor
    · rintro ⟨e, he⟩
      intro hlen
      rw [hval a b hlen] at he
      split at he <;> simp at he
    · intro hlen
      refine ⟨dimErrMsg a.length b.length, ?_⟩
      unfold cosineSimilarity
      rw [if_pos hlen]
  · intro a b h
    rw [hval a b h]
    split
    · exact ⟨0, rfl, by norm_num, by norm_num⟩
    · rename_i hz
      push_neg at hz
      have hA : 0 < dotList a a := by
        rcases lt_or_eq_of_le (dotList_self_nonneg a) with h' | h'
        · exact h'
        · exact absurd (by rw [← h']; exact Real.sqrt_zero) hz.1
      have hB : 0 < dotList b b := by
        rcases lt_or_eq_of_le (dotList_self_nonneg b) with h' | h'
        · exact h'
        · exact absurd (by rw [← h']; exact Real.sqrt_zero) hz.2
      have hden : 0 < Real.sqrt (dotList a a) * Real.sqrt (dotList b b) :=
        mul_pos (Real.sqrt_pos.mpr hA) (Real.sqrt_pos.mpr hB)
      have habs : |dotList a b / (Real.sqrt (dotList a a) * Real.sqrt (dotList b b))| ≤ 1 := by
        rw [abs_div, abs_of_pos hden, div_le_one hden]
        exact abs_dotList_le a b h
      exact ⟨_, rfl, (abs_le.mp habs).1, (abs_le.mp habs).2⟩
  · intro a b h hA hB
    rw [hval a b h, if_neg (by tauto)]
  · intro a b h hz
    rw [hval a b h, if_pos hz]
  · intro a b h
    rw [hval a b h, hval b a h.symm, dotList_comm a b]
    by_cases hz : Real.sqrt (dotList a a) = 0 ∨ Real.sqrt (dotList b b) = 0
    · rw [if_pos hz, if_pos (Or.symm hz)]
    · rw [if_neg hz, if_neg (fun hc => hz (Or.symm hc)), mul_comm]
  · intro a ha
    have hA : 0 < dotList a a := dotList_self_pos a ha
    rw [hval a a rfl, if_neg]
    · rw [Real.mul_self_sqrt (le_of_lt hA), div_self (ne_of_gt hA)]
    · rw [or_self]
      exact ne_of_gt (Real.sqrt_pos.mpr hA)

/-- Concrete instantiation of `cosineSimilarity_spec`: the hypotheses are
satisfiable and the conclusions hold at explicit vectors. -/
theorem cosineSimilarity_spec_witness :
    (([(1:ℝ), 0]).length = ([(0:ℝ), 1]).length) ∧
    (∃ r, cosineSimilarity [(1:ℝ), 0] [(0:ℝ), 1] = .ok r ∧ -1 ≤ r ∧ r ≤ 1) ∧
    cosineSimilarity [(1:ℝ), 0] [(1:ℝ), 0] = .ok 1 :=
  ⟨rfl, cosineSimilarity_spec.2.1 [(1:ℝ), 0] [(0:ℝ), 1] rfl,
    cosineSimilarity_spec.2.2.2.2.2 [(1:ℝ), 0] ⟨1, by simp, one_ne_zero⟩⟩

theorem simDescLe_trans (a b c : ScoredEntry α) :
    simDescLe a b → simDescLe b c → simDescLe a c := by
  simp only [simDescLe, decide_eq_true_eq]
  exact fun h1 h2 => le_trans h2 h1

theorem simDescLe_total (a b : ScoredEntry α) : simDescLe a b || simDescLe b a := by
  simp only [simDescLe, Bool.or_eq_true, decide_eq_true_eq]
  exact le_total b.similarity a.similarity

theorem mapSimilarities_ok (query : List ℝ) (l : List (VectorEntry α))
    (h : ∀ v ∈ l, v.vector.length = query.length) :
    ∃ out, mapSimilarities query l = .ok out ∧
      out.map (fun e => e.id) = l.map (fun v => v.id) ∧
      out.map (fun e => e.data) = l.map (fun v => v.data) ∧
      out.length = l.length := by
  induction l with
  | nil => exact ⟨[], rfl, rfl, rfl, rfl⟩
  | cons item rest ih =>
    obtain ⟨s, hs⟩ := cosineSimilarity_ok_of_len query item.vector
      (h item (List.mem_cons_self item rest)).symm
    obtain ⟨tail, htail, hid, hdata, hlen⟩ :=
      ih (fun v hv => h v (List.mem_cons_of_mem item hv))
    refine ⟨⟨item.id, s, item.data⟩ :: tail, ?_, ?_, ?_, ?_⟩
    · unfold mapSimilarities
      rw [hs, htail]
    · simpa using hid
    · simpa using hdata
    · simpa using hlen

/-- Stability of the stable sort, stated on similarity classes: restricting the
sorted list to any fixed similarity value leaves the input order unchanged. -/
theorem mergeSort_filter_sim_eq (l : List (ScoredEntry α)) (v : ℝ) :
    (l.mergeSort simDescLe).filter (fun e => decide (e.similarity = v)) =
      l.filter (fun e => decide (e.similarity = v)) := by
  have hpw : (l.filter (fun e => decide (e.similarity = v))).Pairwise
      (fun a b => simDescLe a b) := by
    apply List.pairwise_of_forall_mem_list
    intro a ha b hb
    have hav := (List.mem_filter.mp ha).2
    have hbv := (List.mem_filter.mp hb).2
    simp only [decide_eq_true_eq] at hav hbv
    simp only [simDescLe, hav, hbv, decide_eq_true_eq]
    exact le_refl v
  have hsub : List.Sublist (l.filter (fun e => decide (e.similarity = v)))
      (l.mergeSort simDescLe) :=
    List.sublist_mergeSort simDescLe_trans simDescLe_total hpw (List.filter_sublist l)
  have hself : (l.filter (fun e => decide (e.similarity = v))).filter
      (fun e => decide (e.similarity = v)) = l.filter (fun e => decide (e.similarity = v)) := by
    rw [List.filter_eq_self]
    intro a ha
    exact (List.mem_filter.mp ha).2
  have hsub2 : List.Sublist (l.filter (fun e => decide (e.similarity = v)))
      ((l.mergeSort simDescLe).filter (fun e => decide (e.similarity = v))) := by
    rw [← hself]
    exact List.Sublist.filter _ hsub
  have hperm : List.Perm ((l.mergeSort simDescLe).filter (fun e => decide (e.similarity = v)))
      (l.filter (fun e => decide (e.similarity = v))) :=
    (List.mergeSort_perm l simDescLe).filter _
  exact (List.Sublist.eq_of_length hsub2 hperm.length_eq.symm).symm

/-- C6 as stated is false: a candidate whose vector has a different dimension
from the query makes `findTopSimilar` throw the dimension-mismatch error, so
for `k = 1` and one candidate it does not return min(1, 1) = 1 results. -/
theorem findTopSimilar_counterexample :
    findTopSimilar [(1:ℝ)] [VectorEntry.mk "a" [1, 2] ()] 1 = .error (dimErrMsg 1 2) ∧
    ∀ out : List (ScoredEntry Unit),
      findTopSimilar [(1:ℝ)] [VectorEntry.mk "a" [1, 2] ()] 1 ≠ .ok out := by
  have h : findTopSimilar [(1:ℝ)] [VectorEntry.mk "a" [1, 2] ()] 1 =
      .error (dimErrMsg 1 2) := by
    have hcs : cosineSimilarity [(1:ℝ)] [1, 2] = .error (dimErrMsg 1 2) := by
      unfold cosineSimilarity
      norm_num
    unfold findTopSimilar mapSimilarities
    rw [hcs]
  refine ⟨h, fun out hout => ?_⟩
  rw [h] at hout
  exact Except.noConfusion hout

/-- C6 amended: provided every candidate vector has the query's dimension,
`findTopSimilar` succeeds and returns the first `k` elements of the sorted
scored list: exactly min(k, number of candidates) results, sorted
non-increasingly by similarity, and candidates of equal similarity keep their
input order (stability, stated per similarity class).  With a mismatched
candidate dimension it instead fails with the dimension-mismatch error. -/
theorem findTopSimilar_spec {α : Type} (query : List ℝ) (cands : List (VectorEntry α))
    (k : Nat) (h : ∀ c ∈ cands, c.vector.length = query.length) :
    ∃ scored sorted : List (ScoredEntry α),
      mapSimilarities query cands = .ok scored ∧
      scored.map (fun e => e.id) = cands.map (fun v => v.id) ∧
      scored.map (fun e => e.data) = cands.map (fun v => v.data) ∧
      findTopSimilar query cands k = .ok (sorted.take k) ∧
      (sorted.take k).length = min k cands.length ∧
      sorted.Pairwise (fun x y => y.similarity ≤ x.similarity) ∧
      (∀ v : ℝ, sorted.filter (fun e => decide (e.similarity = v)) =
        scored.filter (fun e => decide (e.similarity = v))) := by
  obtain ⟨scored, hs, hid, hdata, hlen⟩ := mapSimilarities_ok query cands h
  refine ⟨scored, scored.mergeSort simDescLe, hs, hid, hdata, ?_, ?_, ?_, ?_⟩
  · unfold findTopSimilar
    rw [hs]
  · rw [List.length_take, List.length_mergeSort, hlen]
  · have hp := @List.sorted_mergeSort _ simDescLe simDescLe_trans simDescLe_total scored
    exact hp.imp (fun hb => by simpa [simDescLe, decide_eq_true_eq] using hb)
  · intro v
    exact mergeSort_filter_sim_eq scored v

/-- Concrete instantiation of `findTopSimilar_spec` at two one-dimensional
candidates. -/
theorem findTopSimilar_spec_witness :
    (∀ c ∈ [VectorEntry.mk "a" [(1:ℝ)] 0, VectorEntry.mk "b" [(2:ℝ)] 1],
      c.vector.length = [(1:ℝ)].length) ∧
    (∃ scored sorted : List (ScoredEntry Nat),
      mapSimilarities [(1:ℝ)] [VectorEntry.mk "a" [(1:ℝ)] 0, VectorEntry.mk "b" [(2:ℝ)] 1] =
        .ok scored ∧
      scored.map (fun e => e.id) =
        ([VectorEntry.mk "a" [(1:ℝ)] 0, VectorEntry.mk "b" [(2:ℝ)] 1]).map (fun v => v.id) ∧
      scored.map (fun e => e.data) =
        ([VectorEntry.mk "a" [(1:ℝ)] 0, VectorEntry.mk "b" [(2:ℝ)] 1]).map (fun v => v.data) ∧
      findTopSimilar [(1:ℝ)] [VectorEntry.mk "a" [(1:ℝ)] 0, VectorEntry.mk "b" [(2:ℝ)] 1] 1 =
        .ok (sorted.take 1) ∧
      (sorted.take 1).length =
        min 1 ([VectorEntry.mk "a" [(1:ℝ)] 0, VectorEntry.mk "b" [(2:ℝ)] 1]).length ∧
      sorted.Pairwise (fun x y => y.similarity ≤ x.similarity) ∧
      (∀ v : ℝ, sorted.filter (fun e => decide (e.similarity = v)) =
        scored.filter (fun e => decide (e.similarity = v)))) :=
  ⟨by simp, findTopSimilar_spec [(1:ℝ)]
    [VectorEntry.mk "a" [(1:ℝ)] 0, VectorEntry.mk "b" [(2:ℝ)] 1] 1 (by simp)⟩

/- ===================== src/utils/keywords.ts ===================== -/

/-- Model of `normalizeKeyword(word)`: British → American spelling normalization. -/
def normalizeKeyword (word : String) : String :=
  if word = "travelling" then "traveling"
  else if word = "cancelled" then "canceled"
  else if word = "colour" then "color"
  else if word = "favour" then "favor"
  else if word = "centre" then "center"
  else if word = "metre" then "meter"
  else if word = "theatre" then "theater"
  else if word = "analyse" then "analyze"
  else if word = "organise" then "organize"
  else if word = "realise" then "realize"
  else word

/-- The fixed `STOP_WORDS` set. -/
def STOP_WORDS : List String :=
  ["the", "is", "at", "which", "on", "a", "an", "and", "or", "but", "in", "with",
   "to", "for", "of", "as", "by", "from", "that", "this", "these", "those", "was",
   "were", "been", "be", "have", "has", "had", "do", "does", "did", "will",
   "would", "could", "should", "may", "might", "can", "are", "am", "it", "its",
   "what", "where", "when", "who", "why", "how", "you", "your", "my", "me", "i",
   "we", "they", "them", "their"]

/-- JS regex `\w`: ASCII word character. -/
def jsWordChar (c : Char) : Bool := c.isAlpha || c.isDigit || c == '_'

/-- JS regex `\s`, restricted to the ASCII whitespace characters occurring here. -/
def jsWs (c : Char) : Bool :=
  c == ' ' || c == '\t' || c == '\n' || c == '\r' || c == Char.ofNat 11 || c == Char.ofNat 12

/-- JS `text.split(/\s+/)`: maximal whitespace runs separate tokens; a leading
run produces an initial empty token, a trailing run a final one.  The arguments
are the remaining characters, the current token (reversed), and whether we are
inside a whitespace run that already emitted the preceding token. -/
def splitWsAux : List Char → List Char → Bool → List (List Char)
  | [], cur, _ => [cur.reverse]
  | c :: rest, cur, inRun =>
    if jsWs c then
      if inRun then splitWsAux rest [] true
      else cur.reverse :: splitWsAux rest [] true
    else splitWsAux rest (c :: cur) false

def splitWs (s : List Char) : List (List Char) := splitWsAux s [] false

/-- Model of `extractKeywords(text)`: lowercase, replace `[^\w\s]` by spaces, split on
whitespace, keep tokens longer than 2 characters, drop stop words, normalize
spelling. -/
def extractKeywords (text : String) : List String :=
  ((splitWs ((text.data.map Char.toLower).map (fun c => if jsWordChar c || jsWs c then c else ' '))).map
      (fun w => String.mk w))
    |>.filter (fun word => word.length > 2)
    |>.filter (fun word => !STOP_WORDS.contains word)
    |>.map normalizeKeyword

/-- JS `hay.includes(needle)` (substring test), on character lists. -/
def containsSub (needle : List Char) : List Char → Bool
  | [] => needle.isPrefixOf []
  | c :: rest => needle.isPrefixOf (c :: rest) || containsSub needle rest

/-- Model of `calculateKeywordScore(queryKeywords, documentText)`, over exact rationals.
The phrase-boost loop over 2-keyword windows (`Math.max`) is the `foldl`. -/
def calculateKeywordScore (queryKeywords : List String) (documentText : String) : ℚ :=
  if queryKeywords.length = 0 then 0
  else
    let docKeywords := extractKeywords documentText
    let matchCount := (queryKeywords.filter (fun q => docKeywords.contains q)).length
    let baseScore : ℚ := (matchCount : ℚ) / (queryKeywords.length : ℚ)
    let queryText := " ".intercalate queryKeywords
    let docText := documentText.data.map Char.toLower
    let phraseBoost : ℚ :=
      if containsSub queryText.data docText then 0.3
      else
        ((queryKeywords.zip queryKeywords.tail).map (fun p => p.1 ++ " " ++ p.2)).foldl
          (fun boost ph => if containsSub ph.data docText then max boost 0.15 else boost) 0
    min 1 (baseScore + phraseBoost)

/-- Model of `calculateHybridScore(vectorSimilarity, keywordScore, vectorWeight = 0.7)`.
The optional third parameter is an `Option`; `none` models an omitted argument,
which takes the declared default 0.7. -/
noncomputable def calculateHybridScore (vectorSimilarity keywordScore : ℝ)
    (vectorWeight : Option ℝ) : ℝ :=
  let w := vectorWeight.getD 0.7
  let keywordWeight := 1 - w
  vectorSimilarity * w + keywordScore * keywordWeight

/- The spec-side reading of the keyword score, for comparison with the code. -/

/-- Spec wording: fraction of query keywords present in the document keyword set. -/
def keywordBaseScore (queryKeywords : List String) (documentText : String) : ℚ :=
  ((queryKeywords.filter (fun q => (extractKeywords documentText).contains q)).length : ℚ) /
    (queryKeywords.length : ℚ)

/-- Spec wording: +0.3 if the full space-joined query-keyword string appears
verbatim in the lowercased document text, else +0.15 if any 2-keyword
consecutive window does, else 0. -/
def keywordPhraseBoost (queryKeywords : List String) (documentText : String) : ℚ :=
  if containsSub (" ".intercalate queryKeywords).data (documentText.data.map Char.toLower) then 0.3
  else if ((queryKeywords.zip queryKeywords.tail).map (fun p => p.1 ++ " " ++ p.2)).any
      (fun ph => containsSub ph.data (documentText.data.map Char.toLower)) then 0.15
  else 0

theorem foldl_max_boost (P : String → Bool) (l : List String) : ∀ b : ℚ, 0 ≤ b →
    l.foldl (fun boost ph => if P ph then max boost 0.15 else boost) b
      = if l.any P then max b 0.15 else b := by
  induction l with
  | nil => intro b _; simp
  | cons x t ih =>
    intro b hb
    rw [List.foldl_cons, List.any_cons]
    by_cases hx : P x
    · rw [if_pos hx, ih _ (le_trans hb (le_max_left _ _))]
      have hor : (P x || t.any P) = true := by rw [hx]; simp
      rw [hor, if_pos rfl]
      by_cases ht : t.any P
      · rw [if_pos ht, max_assoc, max_self]
      · rw [if_neg (by simpa using ht)]
    · rw [if_neg hx, ih b hb]
      have hor : (P x || t.any P) = t.any P := by
        cases hPx : P x
        · simp
        · exact absurd hPx hx
      rw [hor]

/-- C7 as stated is false at query keywords `["cat"]` and document `"catalog"`:
no query keyword is among the document's extracted keywords, yet the phrase
boost fires on the substring "cat" of "catalog", so the score is 0.3, not 0.0. -/
theorem calculateKeywordScore_counterexample :
    (∀ w ∈ ["cat"], ¬ w ∈ extractKeywords "catalog") ∧
    calculateKeywordScore ["cat"] "catalog" = 0.3 := by
  constructor
  · decide
  · have hc : containsSub (" ".intercalate ["cat"]).data ("catalog".data.map Char.toLower)
        = true := by decide
    have hf : (["cat"].filter (fun q => (extractKeywords "catalog").contains q)).length = 0 := by
      decide
    simp only [calculateKeywordScore, hc, hf]
    norm_num

/-- C7 amended: the score is 0 on empty query keywords; otherwise it equals
min(1, baseScore + phraseBoost) with baseScore the matched fraction and
phraseBoost the 0.3/0.15/0 substring rule; it is exactly 1 when every query
keyword is among the document keywords and the full joined phrase occurs
verbatim; and it is 0 when no query keyword matches *and* no phrase boost
applies (the boost can fire on substrings of longer words, stop words, or
unnormalized spellings even when no keyword matches). -/
theorem calculateKeywordScore_spec :
    (∀ d, calculateKeywordScore [] d = 0) ∧
    (∀ qk d, qk ≠ [] →
      calculateKeywordScore qk d = min 1 (keywordBaseScore qk d + keywordPhraseBoost qk d)) ∧
    (∀ qk d, qk ≠ [] → (∀ w ∈ qk, w ∈ extractKeywords d) →
      containsSub (" ".intercalate qk).data (d.data.map Char.toLower) = true →
      calculateKeywordScore qk d = 1) ∧
    (∀ qk d, (∀ w ∈ qk, ¬ w ∈ extractKeywords d) →
      keywordPhraseBoost qk d = 0 →
      calculateKeywordScore qk d = 0) := by
  have hb : ∀ qk d, qk ≠ [] →
      calculateKeywordScore qk d = min 1 (keywordBaseScore qk d + keywordPhraseBoost qk d) := by
    intro qk d hqk
    have hlen : ¬ qk.length = 0 := by simpa using hqk
    simp only [calculateKeywordScore, keywordBaseScore, keywordPhraseBoost]
    rw [if_neg hlen]
    by_cases hfull : containsSub (" ".intercalate qk).data (d.data.map Char.toLower)
    · rw [if_pos hfull, if_pos hfull]
    · rw [if_neg hfull, if_neg hfull]
      rw [foldl_max_boost _ _ 0 (le_refl 0)]
      by_cases hany : ((qk.zip qk.tail).map (fun p => p.1 ++ " " ++ p.2)).any
          (fun ph => containsSub ph.data (d.data.map Char.toLower))
      · rw [if_pos hany, if_pos hany]
        norm_num
      · rw [if_neg hany, if_neg hany]
  refine ⟨?_, hb, ?_, ?_⟩
  · intro d
    simp [calculateKeywordScore]
  · intro qk d hqk hsub hfull
    rw [hb qk d hqk]
    have hbase : keywordBaseScore qk d = 1 := by
      unfold keywordBaseScore
      rw [List.filter_eq_self.mpr (by intro a ha; simpa using hsub a ha)]
      have : (qk.length : ℚ) ≠ 0 := by
        simpa using (by simpa using hqk : ¬ qk.length = 0)
      field_simp
    have hboost : keywordPhraseBoost qk d = 0.3 := by
      unfold keywordPhraseBoost
      rw [if_pos hfull]
    rw [hbase, hboost]
    norm_num
  · intro qk d hnone hboost
    rcases List.eq_nil_or_concat qk with hqk | _
    · subst hqk
      simp [calculateKeywordScore]
    · have hqk : qk ≠ [] := by
        rename_i hex
        obtain ⟨l, a, rfl⟩ := hex
        simp
      rw [hb qk d hqk]
      have hbase : keywordBaseScore qk d = 0 := by
        unfold keywordBaseScore
        rw [List.filter_eq_nil_iff.mpr (by intro a ha; simpa using hnone a ha)]
        simp
      rw [hbase, hboost]
      norm_num

/-- Concrete instantiations of `calculateKeywordScore_spec`. -/
theorem calculateKeywordScore_spec_witness :
    calculateKeywordScore [] "anything" = 0 ∧
    calculateKeywordScore ["loves", "pizza"] "User loves pizza" =
      min 1 (keywordBaseScore ["loves", "pizza"] "User loves pizza" +
        keywordPhraseBoost ["loves", "pizza"] "User loves pizza") ∧
    calculateKeywordScore ["loves", "pizza"] "User loves pizza" = 1 ∧
    calculateKeywordScore ["pizza"] "unrelated words" = 0 :=
  ⟨calculateKeywordScore_spec.1 "anything",
   calculateKeywordScore_spec.2.1 ["loves", "pizza"] "User loves pizza" (by decide),
   calculateKeywordScore_spec.2.2.1 ["loves", "pizza"] "User loves pizza" (by decide)
     (by decide) (by decide),
   calculateKeywordScore_spec.2.2.2 ["pizza"] "unrelated words" (by decide) (by decide)⟩

/-- C8 as stated is false: when the weight argument is omitted the code's
default is 0.7, not 0.8 — at vectorSim = 1, keywordScore = 0 the score is 0.7. -/
theorem calculateHybridScore_counterexample :
    calculateHybridScore 1 0 none = 0.7 ∧
    calculateHybridScore 1 0 none ≠ 1 * 0.8 + 0 * (1 - 0.8) := by
  constructor
  · simp [calculateHybridScore]
  · simp only [calculateHybridScore, Option.getD]
    norm_num

/-- C8 amended: the linear blend `vs*w + ks*(1-w)` holds for every explicitly
passed weight, and the default applied when the weight is omitted is 0.7 (the
retrieval pipeline passes 0.8 explicitly at its call site). -/
theorem calculateHybridScore_spec :
    (∀ vs ks w : ℝ, calculateHybridScore vs ks (some w) = vs * w + ks * (1 - w)) ∧
    (∀ vs ks : ℝ, calculateHybridScore vs ks none = vs * 0.7 + ks * (1 - 0.7)) := by
  constructor
  · intro vs ks w
    simp [calculateHybridScore]
  · intro vs ks
    simp [calculateHybridScore]

/- ===================== src/utils/chunking.ts ===================== -/

/-- Model of `TextChunk` from `src/utils/chunking.ts`; `text` is a character list,
positions are integers (JS number arithmetic can pass through negatives). -/
structure TextChunk where
  text : List Char
  startLine : Int
  endLine : Int
  charStart : Int
  charEnd : Int
deriving Repr, DecidableEq

/-- Model of `ChunkOptions`. -/
structure ChunkOptions where
  maxChars : Nat
  overlapChars : Nat
deriving Repr, DecidableEq

/-- Model of `DEFAULT_CHUNK_OPTIONS`: maxChars 1600, overlapChars 320. -/
def DEFAULT_CHUNK_OPTIONS : ChunkOptions := ⟨1600, 320⟩

/-- JS `text.split('\n')`. -/
def splitNL : List Char → List (List Char)
  | [] => [[]]
  | c :: rest =>
    if c = '\n' then [] :: splitNL rest
    else
      match splitNL rest with
      | w :: ws => (c :: w) :: ws
      | [] => [[c]]

/-- JS `lines.join('\n')`. -/
def joinNL : List (List Char) → List Char
  | [] => []
  | [w] => w
  | w :: ws => w ++ '\n' :: joinNL ws

/-- Model of `Math.ceil((overlapChars / currentSize) * lineCount)` computed exactly
(the source computes it in floating point). -/
def ceilFrac (overlapChars currentSize lineCount : Nat) : Nat :=
  (overlapChars * lineCount + currentSize - 1) / currentSize

/-- JS `array.slice(-n)`: the last `n` elements; `slice(-0)` is `slice(0)`,
the whole array. -/
def sliceNeg (n : Nat) (l : List (List Char)) : List (List Char) :=
  if n = 0 then l else l.drop (l.length - n)

/-- The line loop of `chunkText`.  Arguments: remaining lines, the index `i`
of the next line, `currentLines`, `currentSize`, `startLine`, `charStart`. -/
def chunkLoop (opts : ChunkOptions) :
    List (List Char) → Nat → List (List Char) → Nat → Int → Int → List TextChunk
  | [], i, currentLines, _, startLine, charStart =>
    if currentLines.length > 0 then
      let ct := joinNL currentLines
      [⟨ct, startLine, (i : Int) - 1, charStart, charStart + ct.length⟩]
    else []
  | line :: rest, i, currentLines, currentSize, startLine, charStart =>
    let currentLines' := currentLines ++ [line]
    let currentSize' := currentSize + line.length + 1
    if currentSize' ≥ opts.maxChars then
      let ct := joinNL currentLines'
      let overlapLineCount := ceilFrac opts.overlapChars currentSize' currentLines'.length
      let overlapLines := sliceNeg overlapLineCount currentLines'
      let overlapText := joinNL overlapLines
      ⟨ct, startLine, (i : Int), charStart, charStart + ct.length⟩ ::
        chunkLoop opts rest (i + 1) overlapLines overlapText.length
          ((i : Int) - (overlapLineCount : Int) + 1)
          (charStart + ct.length - overlapText.length)
    else
      chunkLoop opts rest (i + 1) currentLines' currentSize' startLine charStart

/-- Model of `chunkText(text, options)` from `src/utils/chunking.ts`. -/
def chunkText (text : List Char) (options : ChunkOptions) : List TextChunk :=
  chunkLoop options (splitNL text) 0 [] 0 0 0

theorem splitNL_ne_nil (s : List Char) : splitNL s ≠ [] := by
  cases s with
  | nil => simp [splitNL]
  | cons c rest =>
    simp only [splitNL]
    split
    · simp
    · split <;> simp

theorem joinNL_cons_cons (w x : List Char) (xs : List (List Char)) :
    joinNL (w :: x :: xs) = w ++ '\n' :: joinNL (x :: xs) := rfl

theorem joinNL_splitNL (s : List Char) : joinNL (splitNL s) = s := by
  induction s with
  | nil => rfl
  | cons c rest ih =>
    simp only [splitNL]
    split
    · rename_i hc
      obtain ⟨w, ws, hws⟩ : ∃ w ws, splitNL rest = w :: ws := by
        cases h : splitNL rest with
        | nil => exact absurd h (splitNL_ne_nil rest)
        | cons w ws => exact ⟨w, ws, rfl⟩
      rw [hws] at ih ⊢
      rw [joinNL_cons_cons]
      simp [hc, ih]
    · rename_i hc
      cases h : splitNL rest with
      | nil => exact absurd h (splitNL_ne_nil rest)
      | cons w ws =>
        rw [h] at ih
        cases ws with
        | nil =>
          simp only [joinNL] at ih ⊢
          rw [ih]
        | cons x xs =>
          rw [joinNL_cons_cons] at ih
          rw [joinNL_cons_cons, List.cons_append, ih]

/-- The running total `Σ (line.length + 1)` that `currentSize` accumulates. -/
def sumSize (lines : List (List Char)) : Nat := (lines.map (fun l => l.length + 1)).sum

theorem sumSize_cons (l : List Char) (ls : List (List Char)) :
    sumSize (l :: ls) = l.length + 1 + sumSize ls := by
  simp [sumSize]

theorem splitNL_sumSize (s : List Char) : sumSize (splitNL s) = s.length + 1 := by
  induction s with
  | nil => simp [splitNL, sumSize]
  | cons c rest ih =>
    simp only [splitNL]
    split
    · rw [sumSize_cons, ih]
      simp
      omega
    · cases h : splitNL rest with
      | nil => exact absurd h (splitNL_ne_nil rest)
      | cons w ws =>
        rw [h, sumSize_cons] at ih
        rw [sumSize_cons]
        simp only [List.length_cons]
        omega

theorem splitNL_no_newline (s : List Char) (h : '\n' ∉ s) : splitNL s = [s] := by
  induction s with
  | nil => rfl
  | cons c rest ih =>
    simp only [splitNL]
    rw [if_neg (by intro hc; exact h (hc ▸ List.mem_cons_self c rest))]
    rw [ih (fun hm => h (List.mem_cons_of_mem c hm))]

theorem chunkLoop_charEnd (opts : ChunkOptions) :
    ∀ (lines : List (List Char)) (i : Nat) (curr : List (List Char)) (size : Nat)
      (sl cs : Int) (c : TextChunk), c ∈ chunkLoop opts lines i curr size sl cs →
      c.charEnd = c.charStart + c.text.length := by
  intro lines
  induction lines with
  | nil =>
    intro i curr size sl cs c hc
    simp only [chunkLoop] at hc
    split at hc
    · simp only [List.mem_singleton] at hc
      subst hc
      rfl
    · simp at hc
  | cons line rest ih =>
    intro i curr size sl cs c hc
    simp only [chunkLoop] at hc
    split at hc
    · rcases List.mem_cons.mp hc with h1 | h1
      · subst h1
        rfl
      · exact ih _ _ _ _ _ c h1
    · exact ih _ _ _ _ _ c hc

theorem chunkLoop_head_charStart (opts : ChunkOptions) :
    ∀ (lines : List (List Char)) (i : Nat) (curr : List (List Char)) (size : Nat)
      (sl cs : Int) (c : TextChunk),
      (chunkLoop opts lines i curr size sl cs).head? = some c → c.charStart = cs := by
  intro lines
  induction lines with
  | nil =>
    intro i curr size sl cs c hc
    simp only [chunkLoop] at hc
    split at hc
    · simp only [List.head?_cons, Option.some_inj] at hc
      subst hc
      rfl
    · simp at hc
  | cons line rest ih =>
    intro i curr size sl cs c hc
    simp only [chunkLoop] at hc
    split at hc
    · simp only [List.head?_cons, Option.some_inj] at hc
      subst hc
      rfl
    · exact ih _ _ _ _ _ c hc

theorem chunkLoop_chain (opts : ChunkOptions) :
    ∀ (lines : List (List Char)) (i : Nat) (curr : List (List Char)) (size : Nat)
      (sl cs : Int),
      List.Chain' (fun a b => b.charStart ≤ a.charEnd)
        (chunkLoop opts lines i curr size sl cs) := by
  intro lines
  induction lines with
  | nil =>
    intro i curr size sl cs
    simp only [chunkLoop]
    split <;> simp
  | cons line rest ih =>
    intro i curr size sl cs
    simp only [chunkLoop]
    split
    · rw [List.chain'_cons']
      refine ⟨?_, ih _ _ _ _ _⟩
      intro b hb
      have := chunkLoop_head_charStart opts rest _ _ _ _ _ b hb
      rw [this]
      dsimp only
      have hlen : (0 : Int) ≤ ((joinNL (sliceNeg
          (ceilFrac opts.overlapChars (size + line.length + 1) (curr ++ [line]).length)
          (curr ++ [line]))).length : Int) := Int.ofNat_nonneg _
      omega
    · exact ih _ _ _ _ _

/-- C10: every chunk satisfies charEnd − charStart = length(content), and when
overlapChars > 0 each chunk's charStart is at most the previous chunk's
charEnd (overlap continuity). -/
theorem chunkText_invariants (text : List Char) (opts : ChunkOptions) :
    (∀ c ∈ chunkText text opts, c.charEnd - c.charStart = (c.text.length : Int)) ∧
    (0 < opts.overlapChars →
      List.Chain' (fun a b => b.charStart ≤ a.charEnd) (chunkText text opts)) := by
  constructor
  · intro c hc
    have := chunkLoop_charEnd opts (splitNL text) 0 [] 0 0 0 c hc
    omega
  · intro _
    exact chunkLoop_chain opts (splitNL text) 0 [] 0 0 0

/-- Concrete instantiation of `chunkText_invariants`. -/
theorem chunkText_invariants_witness :
    (∀ c ∈ chunkText "ab\ncd\nef".data ⟨4, 1⟩,
      c.charEnd - c.charStart = (c.text.length : Int)) ∧
    List.Chain' (fun a b => b.charStart ≤ a.charEnd) (chunkText "ab\ncd\nef".data ⟨4, 1⟩) :=
  ⟨(chunkText_invariants "ab\ncd\nef".data ⟨4, 1⟩).1,
   (chunkText_invariants "ab\ncd\nef".data ⟨4, 1⟩).2 (by norm_num)⟩

/-- C3 as stated is false: (i) "abcd" has 4 < 5 = maxChars characters yet two
chunks are produced (the final chunk re-emits the overlap buffer); (ii) the
single 6-character line "abcdef" with maxChars 5 becomes two whole-line chunks,
not one; (iii) on "aa\nbbbbbbbb" with maxChars 5 the first of the two chunks
has 11 > 5 characters although it is not the last chunk. -/
theorem chunkText_counterexample :
    ((chunkText "abcd".data ⟨5, 2⟩).length = 2 ∧ "abcd".length < 5) ∧
    ((chunkText "abcdef".data ⟨5, 2⟩).map (fun c => c.text) =
      ["abcdef".data, "abcdef".data]) ∧
    ((chunkText "aa\nbbbbbbbb".data ⟨5, 2⟩).map (fun c => c.text.length) = [11, 8] ∧
      5 < 11) := by
  refine ⟨⟨?_, ?_⟩, ?_, ?_, ?_⟩ <;> decide

theorem chunkLoop_no_emit (opts : ChunkOptions) :
    ∀ (lines : List (List Char)) (i : Nat) (curr : List (List Char)) (size : Nat)
      (sl cs : Int), size + sumSize lines < opts.maxChars →
      chunkLoop opts lines i curr size sl cs =
        chunkLoop opts [] (i + lines.length) (curr ++ lines) (size + sumSize lines) sl cs := by
  intro lines
  induction lines with
  | nil =>
    intro i curr size sl cs _
    simp [sumSize]
  | cons line rest ih =>
    intro i curr size sl cs hlt
    rw [sumSize_cons] at hlt
    have h1 : i + 1 + rest.length = i + (line :: rest).length := by
      simp [List.length_cons]
      omega
    have h2 : curr ++ [line] ++ rest = curr ++ line :: rest := by simp
    have h3 : size + line.length + 1 + sumSize rest = size + sumSize (line :: rest) := by
      rw [sumSize_cons]
      omega
    have step1 : chunkLoop opts (line :: rest) i curr size sl cs =
        chunkLoop opts rest (i + 1) (curr ++ [line]) (size + line.length + 1) sl cs := by
      simp only [chunkLoop]
      rw [if_neg (by omega)]
    rw [step1, ih (i + 1) (curr ++ [line]) (size + line.length + 1) sl cs (by omega),
      h1, h2, h3]

/-- C3 amended: chunks are whole lines and are never split mid-line, but (i) a
single line of length ≥ maxChars yields *two* chunks, each the entire line
(the loop emits it and the trailing flush re-emits the overlap buffer); and
(ii) exactly one chunk — the whole text — is produced only when
`length(text) + 2 ≤ maxChars` (at `length(text) = maxChars - 1` the
`currentSize ≥ maxChars` trigger already fires and two chunks appear). -/
theorem chunkText_amended :
    (∀ (line : List Char) (opts : ChunkOptions), '\n' ∉ line →
      opts.maxChars ≤ line.length →
      (chunkText line opts).map (fun c => c.text) = [line, line]) ∧
    (∀ (text : List Char) (opts : ChunkOptions), text.length + 2 ≤ opts.maxChars →
      chunkText text opts =
        [⟨text, 0, ((splitNL text).length : Int) - 1, 0, (text.length : Int)⟩]) := by
  constructor
  · intro line opts hnl hlen
    unfold chunkText
    rw [splitNL_no_newline line hnl]
    simp only [chunkLoop, List.nil_append]
    rw [if_pos (by omega : 0 + line.length + 1 ≥ opts.maxChars)]
    have hslice : sliceNeg
        (ceilFrac opts.overlapChars (0 + line.length + 1) [line].length)
        [line] = [line] := by
      unfold sliceNeg
      split
      · rfl
      · rename_i hne
        have h2 : ([line] : List (List Char)).length -
            ceilFrac opts.overlapChars (0 + line.length + 1) [line].length = 0 := by
          simp only [List.length_cons, List.length_nil] at hne ⊢
          omega
        rw [h2]
        rfl
    rw [hslice]
    rw [if_pos (by simp)]
    simp [joinNL]
  · intro text opts hlen
    unfold chunkText
    rw [chunkLoop_no_emit opts (splitNL text) 0 [] 0 0 0
      (by rw [splitNL_sumSize]; omega)]
    simp only [chunkLoop, List.nil_append]
    rw [if_pos (by simpa using List.length_pos.mpr (splitNL_ne_nil text))]
    rw [joinNL_splitNL]
    simp

/-- Concrete instantiations of `chunkText_amended`. -/
theorem chunkText_amended_witness :
    ((chunkText "abcdef".data ⟨5, 2⟩).map (fun c => c.text) =
      ["abcdef".data, "abcdef".data]) ∧
    chunkText "ab".data ⟨5, 2⟩ =
      [⟨"ab".data, 0, ((splitNL "ab".data).length : Int) - 1, 0, ("ab".data.length : Int)⟩] :=
  ⟨chunkText_amended.1 "abcdef".data ⟨5, 2⟩ (by decide) (by decide),
   chunkText_amended.2 "ab".data ⟨5, 2⟩ (by decide)⟩

/- ============ preprocessQuery (src/core/retrieval.ts, lines 28-70) ============ -/

/-- Case-insensitive literal prefix match, returning the remainder on success. -/
def ciStripPre : List Char → List Char → Option (List Char)
  | [], s => some s
  | _ :: _, [] => none
  | p :: ps, c :: cs => if c.toLower = p.toLower then ciStripPre ps cs else none

/-- One anchored prefix pattern `^(alt1|alt2|...)sep+`, `/i`: alternatives are
tried in order; after a literal match the separator class must consume at least
one character, greedily — otherwise the engine backtracks to the next
alternative.  `greetings?` is the two alternatives "greetings", "greeting". -/
def stripAnchoredAlt (alts : List (List Char)) (sep : Char → Bool) (s : List Char) :
    List Char :=
  match alts with
  | [] => s
  | alt :: more =>
    match ciStripPre alt s with
    | some rest =>
      match rest with
      | c :: _ => if sep c then rest.dropWhile sep else stripAnchoredAlt more sep s
      | [] => stripAnchoredAlt more sep s
    | none => stripAnchoredAlt more sep s

/-- JS regex `.`: any character except a line terminator. -/
def dotChar (c : Char) : Bool :=
  !(c == '\n' || c == '\r' || c == Char.ofNat 0x2028 || c == Char.ofNat 0x2029)

/-- The scan of the lazy group `(.+?)` after its first captured character:
stop at the first question mark (minimal match), keep extending through
dot-characters otherwise. -/
def lazyScanQ (accRev : List Char) : List Char → Option (List Char × List Char)
  | [] => none
  | c :: rest =>
    if c = '?' then some (accRev.reverse, rest)
    else if dotChar c then lazyScanQ (c :: accRev) rest
    else none

/-- Lazy `(.+?)\?`: the minimal non-empty dot-run followed by a question mark;
returns (capture, rest after the question mark). -/
def lazyUntilQ : List Char → Option (List Char × List Char)
  | [] => none
  | c :: rest => if dotChar c then lazyScanQ [c] rest else none

/-- The tail of `\s+(.+?)\?` once one whitespace character is consumed: the
greedy run prefers consuming further whitespace and backtracks into the lazy
capture (whitespace is also a dot-character) when that fails. -/
def wsTailLazyQ : List Char → Option (List Char × List Char)
  | [] => none
  | c :: rest =>
    if jsWs c then
      match wsTailLazyQ rest with
      | some r => some r
      | none => lazyUntilQ (c :: rest)
    else lazyUntilQ (c :: rest)

/-- Model of `\s+(.+?)\?`: at least one whitespace character, then the lazy capture. -/
def wsPlusLazyQ : List Char → Option (List Char × List Char)
  | [] => none
  | c :: rest => if jsWs c then wsTailLazyQ rest else none

/-- Model of `(have|know|remember)\s+(.+?)\?` with ordered alternation backtracking. -/
def altThenWsLazyQ (alts : List (List Char)) (s : List Char) :
    Option (List Char × List Char) :=
  match alts with
  | [] => none
  | alt :: more =>
    match ciStripPre alt s with
    | some rest =>
      match wsPlusLazyQ rest with
      | some r => some r
      | none => altThenWsLazyQ more s
    | none => altThenWsLazyQ more s

/-- Model of `/do you (have|know|remember)\s+(.+?)\?/i` at a fixed position; the
returned first component is the replacement `$2`. -/
def matchQ1At (s : List Char) : Option (List Char × List Char) :=
  match ciStripPre "do you ".data s with
  | some r1 => altThenWsLazyQ ["have".data, "know".data, "remember".data] r1
  | none => none

/-- Model of `/do I (\w+)\s+(.+?)\?/i` at a fixed position; the returned first
component is the replacement `$1 $2`.  The greedy `\w+` run is maximal (a
shorter run would leave a word character where `\s+` must match). -/
def matchQ2At (s : List Char) : Option (List Char × List Char) :=
  match ciStripPre "do i ".data s with
  | some r1 =>
    let w := r1.takeWhile jsWordChar
    if w.isEmpty then none
    else
      match wsPlusLazyQ (r1.dropWhile jsWordChar) with
      | some (cap, rest) => some (w ++ ' ' :: cap, rest)
      | none => none
  | none => none

/-- A literal question pattern `lit\s+(.+?)\?`, `/i`, replacement `$1`. -/
def matchLitQAt (lit : List Char) (s : List Char) : Option (List Char × List Char) :=
  match ciStripPre lit s with
  | some r1 => wsPlusLazyQ r1
  | none => none

/-- Leftmost-match search; on success returns the JS
`processed.replace(pattern, replacement)` result `pre ++ replacement ++ post`. -/
def replaceFirst (matchAt : List Char → Option (List Char × List Char)) :
    List Char → Option (List Char)
  | [] =>
    match matchAt [] with
    | some (repl, rest) => some (repl ++ rest)
    | none => none
  | c :: s =>
    match matchAt (c :: s) with
    | some (repl, rest) => some (repl ++ rest)
    | none =>
      match replaceFirst matchAt s with
      | some out => some (c :: out)
      | none => none

/-- The apostrophe character (U+0027), used by the `what's` pattern. -/
def apos : Char := Char.ofNat 39

/-- The ordered `questionPatterns` loop of `preprocessQuery`: the first pattern
that matches anywhere is applied once, then the loop breaks. -/
def applyQuestionPatterns (s : List Char) : List Char :=
  match replaceFirst matchQ1At s with
  | some out => out
  | none =>
    match replaceFirst matchQ2At s with
    | some out => out
    | none =>
      match replaceFirst (matchLitQAt "what is".data) s with
      | some out => out
      | none =>
        match replaceFirst (matchLitQAt ("what".data ++ [apos, 's'])) s with
        | some out => out
        | none =>
          match replaceFirst (matchLitQAt "where is".data) s with
          | some out => out
          | none =>
            match replaceFirst (matchLitQAt "when is".data) s with
            | some out => out
            | none => s

/-- The four anchored conversational-prefix patterns, applied in order. -/
def stripConvPrefixes (s : List Char) : List Char :=
  let s1 := stripAnchoredAlt
    ["hello".data, "hi".data, "hey".data, "greetings".data, "greeting".data]
    (fun c => c == ',' || jsWs c) s
  let s2 := stripAnchoredAlt
    ["do you".data, "can you".data, "could you".data, "would you".data] jsWs s1
  let s3 := stripAnchoredAlt ["please".data] jsWs s2
  stripAnchoredAlt ["i want to".data, "i need to".data, "i would like to".data] jsWs s3

/-- JS `String.prototype.trim`. -/
def trimWs (s : List Char) : List Char :=
  ((s.dropWhile jsWs).reverse.dropWhile jsWs).reverse

/-- Model of `preprocessQuery(query)` from `src/core/retrieval.ts`: strip conversational
prefixes, rewrite one question form, trim; fall back to the original query when
the result is shorter than 3 characters. -/
def preprocessQuery (query : String) : String :=
  let processed := stripConvPrefixes query.data
  let processed2 := applyQuestionPatterns processed
  let trimmed := trimWs processed2
  if trimmed.length ≥ 3 then String.mk trimmed else query

/-- C2: the code contradicts its own documented example.  The anchored prefix
rule strips the leading "do you " before the question patterns run, so
`/do you (have|know|remember)\s+(.+?)\?/i` can no longer fire and
"do you have my name?" evaluates to "have my name?" rather than the documented
"my name".  The claim's other two parts hold on the code:
"what is my name?" → "my name", and a rewrite that would shrink below 3
characters is discarded ("hi" stays "hi"). -/
theorem preprocessQuery_code_bug :
    preprocessQuery "do you have my name?" = "have my name?" ∧
    preprocessQuery "do you have my name?" ≠ "my name" ∧
    preprocessQuery "what is my name?" = "my name" ∧
    preprocessQuery "hi" = "hi" := by
  refine ⟨?_, ?_, ?_, ?_⟩ <;> decide

/- ============== src/core/retrieval.ts : retrieveContext ============== -/

/-- Model of `Memory` (src/types/memory.ts), restricted to the fields retrieval reads;
`createdAt` stands in for the metadata block. -/
structure Memory where
  id : String
  content : String
  embedding : List ℝ
  createdAt : Int

/-- Model of `SummaryChunk`, restricted to the fields retrieval reads. -/
structure SummaryChunk where
  id : String
  summaryId : String
  content : String
  embedding : List ℝ

/-- The configuration fields `retrieveContext` consumes
(`config.memory.topK`, `config.memory.relevanceThreshold`). -/
structure MemoryConfig where
  topK : Nat
  relevanceThreshold : ℝ

/-- The optional `options` argument of `retrieveContext`. -/
structure RetrievalOptions where
  memoryTopK : Option Nat
  summaryTopK : Option Nat
  minRelevance : Option ℝ

/-- An element of `RetrievedContext.memories`. -/
structure MemoryWithScore where
  memory : Memory
  similarity : ℝ

/-- An element of `RetrievedContext.summaryChunks`. -/
structure ChunkWithScore where
  chunk : SummaryChunk
  similarity : ℝ

/-- Model of `RetrievedContext`. -/
structure RetrievedContext where
  memories : List MemoryWithScore
  summaryChunks : List ChunkWithScore
  query : String
  queryEmbedding : List ℝ

/-- Model of `options?.memoryTopK ?? config.memory.topK`. -/
def resolvedMemoryTopK (config : MemoryConfig) (options : Option RetrievalOptions) : Nat :=
  (options.bind (fun o => o.memoryTopK)).getD config.topK

/-- Model of `options?.summaryTopK ?? Math.ceil(memoryTopK / 2)`. -/
def resolvedSummaryTopK (config : MemoryConfig) (options : Option RetrievalOptions) : Nat :=
  (options.bind (fun o => o.summaryTopK)).getD ((resolvedMemoryTopK config options + 1) / 2)

/-- Model of `options?.minRelevance ?? config.memory.relevanceThreshold`. -/
noncomputable def resolvedMinRelevance (config : MemoryConfig)
    (options : Option RetrievalOptions) : ℝ :=
  (options.bind (fun o => o.minRelevance)).getD config.relevanceThreshold

/-- A `memoryResults` element enriched by hybrid scoring
(`{...result, keywordScore, hybridScore}`). -/
structure HybridResult where
  entry : ScoredEntry Memory
  keywordScore : ℝ
  hybridScore : ℝ

/-- The hybrid-scoring map body of step 4.5: keyword score against the memory
content; the adaptive rule keeps the raw similarity at `>= 0.7` and otherwise
blends with `calculateHybridScore(similarity, keywordScore, 0.8)`. -/
noncomputable def hybridRescore (queryKeywords : List String) (r : ScoredEntry Memory) :
    HybridResult :=
  let keywordScore : ℝ := ((calculateKeywordScore queryKeywords r.data.content : ℚ) : ℝ)
  ⟨r, keywordScore,
    if r.similarity ≥ 0.7 then r.similarity
    else calculateHybridScore r.similarity keywordScore (some 0.8)⟩

/-- The comparator `(a, b) => b.hybridScore - a.hybridScore` of the re-sort. -/
noncomputable def hybridDescLe (x y : HybridResult) : Bool :=
  decide (y.hybridScore ≤ x.hybridScore)

/-- Model of `retrieveContext(query, options?)` from `src/core/retrieval.ts`.  The
collaborators are explicit inputs: `gen` models `generateEmbedding` (invoked on
the preprocessed query), `memoriesResult` models the `getAllMemories()` result,
`chunksResult` the `getAllSummaryChunks()` result.  The surrounding `try/catch`
that converts a thrown dimension-mismatch error into a `failure` is the match
on each `findTopSimilar` result. -/
noncomputable def retrieveContext
    (gen : String → Result (List ℝ) String)
    (memoriesResult : Result (List Memory) String)
    (chunksResult : Result (List SummaryChunk) String)
    (config : MemoryConfig)
    (query : String) (options : Option RetrievalOptions) :
    Result RetrievedContext String :=
  let memoryTopK := resolvedMemoryTopK config options
  let summaryTopK := resolvedSummaryTopK config options
  let minRelevance := resolvedMinRelevance config options
  let focusedQuery := preprocessQuery query
  match gen focusedQuery with
  | .failure e => .failure e
  | .success queryEmbedding =>
    let queryKeywords := extractKeywords query
    match memoriesResult with
    | .failure e => .failure e
    | .success allMemories =>
      match chunksResult with
      | .failure e => .failure e
      | .success allChunks =>
        let memoryResultsE :=
          if allMemories.length > 0 then
            findTopSimilar queryEmbedding
              (allMemories.map (fun m => ⟨m.id, m.embedding, m⟩)) memoryTopK
          else .ok []
        match memoryResultsE with
        | .error e => .failure e
        | .ok memoryResults =>
          let hybridResults := memoryResults.map (hybridRescore queryKeywords)
          let sortedHybrid := hybridResults.mergeSort hybridDescLe
          let chunkResultsE :=
            if allChunks.length > 0 then
              findTopSimilar queryEmbedding
                (allChunks.map (fun c => ⟨c.id, c.embedding, c⟩)) summaryTopK
            else .ok []
          match chunkResultsE with
          | .error e => .failure e
          | .ok chunkResults =>
            let relevantMemories := (sortedHybrid.filter
                (fun r => decide (r.hybridScore ≥ minRelevance))).map
              (fun r => MemoryWithScore.mk r.entry.data r.hybridScore)
            let relevantChunks := (chunkResults.filter
                (fun r => decide (r.similarity ≥ minRelevance))).map
              (fun r => ChunkWithScore.mk r.data r.similarity)
            .success ⟨relevantMemories, relevantChunks, query, queryEmbedding⟩

/-- Model of `searchMemories(query, topK = 10)`: `retrieveContext` with the options
`{memoryTopK: topK, summaryTopK: 0}`, keeping only the memories. -/
noncomputable def searchMemories
    (gen : String → Result (List ℝ) String)
    (memoriesResult : Result (List Memory) String)
    (chunksResult : Result (List SummaryChunk) String)
    (config : MemoryConfig)
    (query : String) (topK : Nat) :
    Result (List MemoryWithScore) String :=
  match retrieveContext gen memoriesResult chunksResult config query
      (some ⟨some topK, some 0, none⟩) with
  | .failure e => .failure e
  | .success ctx => .success ctx.memories

theorem cosineSimilarity_mismatch (a b : List ℝ) (h : a.length ≠ b.length) :
    cosineSimilarity a b = .error (dimErrMsg a.length b.length) := by
  unfold cosineSimilarity
  rw [if_pos h]

theorem findTopSimilar_ok (query : List ℝ) (cands : List (VectorEntry α)) (k : Nat)
    (h : ∀ c ∈ cands, c.vector.length = query.length) :
    ∃ out, findTopSimilar query cands k = .ok out := by
  obtain ⟨scored, hs, -, -, -⟩ := mapSimilarities_ok query cands h
  refine ⟨(scored.mergeSort simDescLe).take k, ?_⟩
  simp only [findTopSimilar, hs]

theorem findTopSimilar_zero (query : List ℝ) (cands : List (VectorEntry α))
    (h : ∀ c ∈ cands, c.vector.length = query.length) :
    findTopSimilar query cands 0 = .ok [] := by
  obtain ⟨scored, hs, -, -, -⟩ := mapSimilarities_ok query cands h
  simp only [findTopSimilar, hs, List.take_zero]

theorem mapped_dims {β : Type} (emb : List ℝ) (l : List β) (f : β → List ℝ)
    (idf : β → String) (h : ∀ m ∈ l, (f m).length = emb.length) :
    ∀ v ∈ l.map (fun m => VectorEntry.mk (idf m) (f m) m), v.vector.length = emb.length := by
  intro v hv
  obtain ⟨m, hm, rfl⟩ := List.mem_map.mp hv
  exact h m hm

/-- Reduction of `retrieveContext` once every collaborator result is fixed. -/
theorem retrieveContext_eq_success
    (gen : String → Result (List ℝ) String)
    (memsRes : Result (List Memory) String) (chunksRes : Result (List SummaryChunk) String)
    (config : MemoryConfig) (query : String) (options : Option RetrievalOptions)
    (emb : List ℝ) (mems : List Memory) (chunks : List SummaryChunk)
    (mr : List (ScoredEntry Memory)) (cr : List (ScoredEntry SummaryChunk))
    (hg : gen (preprocessQuery query) = .success emb)
    (hm : memsRes = Result.success mems)
    (hc : chunksRes = Result.success chunks)
    (hmr : (if mems.length > 0 then
        findTopSimilar emb (mems.map (fun m => ⟨m.id, m.embedding, m⟩))
          (resolvedMemoryTopK config options) else .ok []) = .ok mr)
    (hcr : (if chunks.length > 0 then
        findTopSimilar emb (chunks.map (fun c => ⟨c.id, c.embedding, c⟩))
          (resolvedSummaryTopK config options) else .ok []) = .ok cr) :
    retrieveContext gen memsRes chunksRes config query options =
      .success ⟨(((mr.map (hybridRescore (extractKeywords query))).mergeSort
            hybridDescLe).filter
          (fun r => decide (r.hybridScore ≥ resolvedMinRelevance config options))).map
          (fun r => MemoryWithScore.mk r.entry.data r.hybridScore),
        (cr.filter (fun r => decide (r.similarity ≥ resolvedMinRelevance config options))).map
          (fun r => ChunkWithScore.mk r.data r.similarity),
        query, emb⟩ := by
  subst hm hc
  simp only [retrieveContext, hg, hmr, hcr]

/-- C4: `retrieveContext` returns an explicit success/failure result (it is a
total function into `Result`); the first collaborator failure — embedding
generation, then the memory load, then the chunk load — aborts the whole call
with exactly that error and no partial result; and empty collections
short-circuit: with both stores empty the call succeeds with an empty context
(no similarity math can fail), and an empty collection on either side yields
the empty result for that category. -/
theorem retrieveContext_failure_spec :
    (∀ gen memsRes chunksRes config query options e,
      gen (preprocessQuery query) = .failure e →
      retrieveContext gen memsRes chunksRes config query options = .failure e) ∧
    (∀ gen chunksRes config query options emb e,
      gen (preprocessQuery query) = .success emb →
      retrieveContext gen (.failure e) chunksRes config query options = .failure e) ∧
    (∀ gen config query options emb (mems : List Memory) e,
      gen (preprocessQuery query) = .success emb →
      retrieveContext gen (.success mems) (.failure e) config query options = .failure e) ∧
    (∀ gen config query options emb,
      gen (preprocessQuery query) = .success emb →
      retrieveContext gen (.success []) (.success []) config query options =
        .success ⟨[], [], query, emb⟩) ∧
    (∀ gen config query options emb (mems : List Memory),
      gen (preprocessQuery query) = .success emb →
      (∀ m ∈ mems, m.embedding.length = emb.length) →
      ∃ ctx, retrieveContext gen (.success mems) (.success []) config query options =
        .success ctx ∧ ctx.summaryChunks = []) ∧
    (∀ gen config query options emb (chunks : List SummaryChunk),
      gen (preprocessQuery query) = .success emb →
      (∀ c ∈ chunks, c.embedding.length = emb.length) →
      ∃ ctx, retrieveContext gen (.success []) (.success chunks) config query options =
        .success ctx ∧ ctx.memories = []) := by
  refine ⟨?_, ?_, ?_, ?_, ?_, ?_⟩
  · intro gen memsRes chunksRes config query options e hg
    simp only [retrieveContext, hg]
  · intro gen chunksRes config query options emb e hg
    simp only [retrieveContext, hg]
  · intro gen config query options emb mems e hg
    simp only [retrieveContext, hg]
  · intro gen config query options emb hg
    rw [retrieveContext_eq_success gen _ _ config query options emb [] [] [] [] hg rfl rfl
      (by rw [if_neg (by simp)]) (by rw [if_neg (by simp)])]
    simp
  · intro gen config query options emb mems hg hdm
    have hmr : ∃ mr, (if mems.length > 0 then
        findTopSimilar emb (mems.map (fun m => ⟨m.id, m.embedding, m⟩))
          (resolvedMemoryTopK config options) else .ok []) = .ok mr := by
      by_cases h0 : mems.length > 0
      · rw [if_pos h0]
        exact findTopSimilar_ok emb _ _
          (mapped_dims emb mems (fun m => m.embedding) (fun m => m.id) hdm)
      · rw [if_neg h0]
        exact ⟨[], rfl⟩
    obtain ⟨mr, hmr⟩ := hmr
    refine ⟨_, retrieveContext_eq_success gen _ _ config query options emb mems [] mr [] hg
      rfl rfl hmr (by rw [if_neg (by simp)]), ?_⟩
    simp
  · intro gen config query options emb chunks hg hdc
    have hcr : ∃ cr, (if chunks.length > 0 then
        findTopSimilar emb (chunks.map (fun c => ⟨c.id, c.embedding, c⟩))
          (resolvedSummaryTopK config options) else .ok []) = .ok cr := by
      by_cases h0 : chunks.length > 0
      · rw [if_pos h0]
        exact findTopSimilar_ok emb _ _
          (mapped_dims emb chunks (fun c => c.embedding) (fun c => c.id) hdc)
      · rw [if_neg h0]
        exact ⟨[], rfl⟩
    obtain ⟨cr, hcr⟩ := hcr
    refine ⟨_, retrieveContext_eq_success gen _ _ config query options emb [] chunks [] cr hg
      rfl rfl (by rw [if_neg (by simp)]) hcr, ?_⟩
    simp

/-- Concrete instantiations of `retrieveContext_failure_spec`. -/
theorem retrieveContext_failure_spec_witness :
    retrieveContext (fun _ => .failure "embedding down") (.success []) (.success [])
      ⟨10, 0.65⟩ "q" none = .failure "embedding down" ∧
    retrieveContext (fun _ => .success [(1:ℝ)]) (.failure "db locked") (.success [])
      ⟨10, 0.65⟩ "q" none = .failure "db locked" ∧
    retrieveContext (fun _ => .success [(1:ℝ)]) (.success []) (.failure "db locked")
      ⟨10, 0.65⟩ "q" none = .failure "db locked" ∧
    retrieveContext (fun _ => .success [(1:ℝ)]) (.success []) (.success [])
      ⟨10, 0.65⟩ "q" none = .success ⟨[], [], "q", [(1:ℝ)]⟩ ∧
    (∃ ctx, retrieveContext (fun _ => .success [(1:ℝ)])
      (.success [⟨"m1", "fact", [(1:ℝ)], 0⟩]) (.success []) ⟨10, 0.65⟩ "q" none =
        .success ctx ∧ ctx.summaryChunks = []) ∧
    (∃ ctx, retrieveContext (fun _ => .success [(1:ℝ)]) (.success [])
      (.success [⟨"c1", "s1", "text", [(1:ℝ)]⟩]) ⟨10, 0.65⟩ "q" none =
        .success ctx ∧ ctx.memories = []) :=
  ⟨retrieveContext_failure_spec.1 _ _ _ _ "q" none "embedding down" rfl,
   retrieveContext_failure_spec.2.1 _ _ _ "q" none [(1:ℝ)] "db locked" rfl,
   retrieveContext_failure_spec.2.2.1 _ _ "q" none [(1:ℝ)] [] "db locked" rfl,
   retrieveContext_failure_spec.2.2.2.1 _ _ "q" none [(1:ℝ)] rfl,
   retrieveContext_failure_spec.2.2.2.2.1 _ _ "q" none [(1:ℝ)]
     [⟨"m1", "fact", [(1:ℝ)], 0⟩] rfl (by simp),
   retrieveContext_failure_spec.2.2.2.2.2 _ _ "q" none [(1:ℝ)]
     [⟨"c1", "s1", "text", [(1:ℝ)]⟩] rfl (by simp)⟩

/-- C9 as stated is false: with `summaryTopK` forced to 0 the summary search is
still executed — a similarity is computed against every stored chunk and the
sorted result is then sliced to nothing — so the outcome is not independent of
the chunk set: a chunk whose embedding dimension differs from the query fails
the whole search, while the same call against an empty chunk store succeeds. -/
theorem searchMemories_counterexample :
    searchMemories (fun _ => .success [(1:ℝ)]) (.success [])
      (.success [⟨"c1", "s1", "text", [(1:ℝ), 2]⟩]) ⟨10, 0.65⟩ "query" 5 =
      .failure (dimErrMsg 1 2) ∧
    searchMemories (fun _ => .success [(1:ℝ)]) (.success []) (.success [])
      ⟨10, 0.65⟩ "query" 5 = .success [] := by
  have hcs : cosineSimilarity [(1:ℝ)] [(1:ℝ), 2] = .error (dimErrMsg 1 2) := by
    have h := cosineSimilarity_mismatch [(1:ℝ)] [(1:ℝ), 2] (by norm_num)
    simpa using h
  constructor
  · simp [searchMemories, retrieveContext, findTopSimilar, mapSimilarities, hcs]
  · simp [searchMemories, retrieveContext, findTopSimilar, mapSimilarities]

/-- Collapsing the `length > 0` guard: an empty candidate set and `topK`-slicing
of an empty scored list agree with calling `findTopSimilar` directly. -/
theorem topStep_eq {β : Type} (emb : List ℝ) (l : List β) (f : β → VectorEntry α) (k : Nat) :
    (if l.length > 0 then findTopSimilar emb (l.map f) k else .ok []) =
      findTopSimilar emb (l.map f) k := by
  cases l with
  | nil =>
    rw [if_neg (by simp)]
    simp [findTopSimilar, mapSimilarities]
  | cons x xs =>
    rw [if_pos (by simp)]

/-- C9 amended: `searchMemories` runs the same pipeline with `summaryTopK`
forced to 0 and returns only the memories; the summary search is executed,
not skipped — similarities against the stored chunks are computed and merely
discarded by the zero-slice — so the outcome agrees with an empty chunk store
exactly when every stored chunk embedding has the query's dimension (a
malformed chunk fails the whole search). -/
theorem searchMemories_spec
    (gen : String → Result (List ℝ) String) (memsRes : Result (List Memory) String)
    (config : MemoryConfig) (query : String) (k : Nat)
    (emb : List ℝ) (chunks : List SummaryChunk)
    (hg : gen (preprocessQuery query) = .success emb)
    (hdc : ∀ c ∈ chunks, c.embedding.length = emb.length) :
    searchMemories gen memsRes (.success chunks) config query k =
      searchMemories gen memsRes (.success []) config query k := by
  have hcr : (if chunks.length > 0 then
      findTopSimilar emb (chunks.map (fun c => ⟨c.id, c.embedding, c⟩))
        (resolvedSummaryTopK config (some ⟨some k, some 0, none⟩)) else .ok []) =
      .ok ([] : List (ScoredEntry SummaryChunk)) := by
    by_cases h0 : chunks.length > 0
    · rw [if_pos h0]
      have hz : resolvedSummaryTopK config (some ⟨some k, some 0, none⟩) = 0 := rfl
      rw [hz]
      exact findTopSimilar_zero emb _
        (mapped_dims emb chunks (fun c => c.embedding) (fun c => c.id) hdc)
    · rw [if_neg h0]
  cases memsRes with
  | failure e =>
    simp only [searchMemories, retrieveContext, hg]
  | success mems =>
    cases hmr : (if mems.length > 0 then
        findTopSimilar emb (mems.map (fun m => ⟨m.id, m.embedding, m⟩))
          (resolvedMemoryTopK config (some ⟨some k, some 0, none⟩)) else .ok []) with
    | error e =>
      simp only [searchMemories, retrieveContext, hg, hmr]
    | ok mr =>
      simp only [searchMemories]
      rw [retrieveContext_eq_success gen _ _ config query _ emb mems chunks mr [] hg
          rfl rfl hmr hcr,
        retrieveContext_eq_success gen _ _ config query _ emb mems [] mr [] hg
          rfl rfl hmr (by rw [if_neg (by simp)])]

/-- Concrete instantiation of `searchMemories_spec`: a well-formed chunk store
does not change the outcome relative to an empty one. -/
theorem searchMemories_spec_witness :
    searchMemories (fun _ => .success [(1:ℝ)]) (.success [])
      (.success [⟨"c1", "s1", "text", [(1:ℝ)]⟩]) ⟨10, 0.65⟩ "q" 3 =
      searchMemories (fun _ => .success [(1:ℝ)]) (.success []) (.success [])
        ⟨10, 0.65⟩ "q" 3 :=
  searchMemories_spec (fun _ => .success [(1:ℝ)]) (.success []) ⟨10, 0.65⟩ "q" 3
    [(1:ℝ)] [⟨"c1", "s1", "text", [(1:ℝ)]⟩] rfl (by simp)

theorem hybridDescLe_trans (a b c : HybridResult) :
    hybridDescLe a b → hybridDescLe b c → hybridDescLe a c := by
  simp only [hybridDescLe, decide_eq_true_eq]
  exact fun h1 h2 => le_trans h2 h1

theorem hybridDescLe_total (a b : HybridResult) : hybridDescLe a b || hybridDescLe b a := by
  simp only [hybridDescLe, Bool.or_eq_true, decide_eq_true_eq]
  exact le_total b.hybridScore a.hybridScore

/-- C1: under successful collaborators with well-formed embedding dimensions,
`retrieveContext` succeeds and: every hybrid score follows the adaptive rule —
the raw vector similarity when it is ≥ 0.7, otherwise
`calculateHybridScore(similarity, keywordScore, 0.8)`; every returned memory
arises from a candidate of the vector top-K pre-filter, carries that rule's
score, and passes `minRelevance`; every pre-filter candidate whose rule score
passes `minRelevance` is returned; the returned memories are sorted
non-increasingly by final (hybrid) score; and the returned chunks are exactly
the raw-similarity threshold filter of the chunk top-K, with no hybrid
scoring. -/
theorem retrieveContext_hybrid_spec
    (gen : String → Result (List ℝ) String) (config : MemoryConfig) (query : String)
    (options : Option RetrievalOptions) (emb : List ℝ)
    (mems : List Memory) (chunks : List SummaryChunk)
    (hg : gen (preprocessQuery query) = .success emb)
    (hdm : ∀ m ∈ mems, m.embedding.length = emb.length)
    (hdc : ∀ c ∈ chunks, c.embedding.length = emb.length) :
    (∀ r : ScoredEntry Memory, (hybridRescore (extractKeywords query) r).hybridScore =
      if r.similarity ≥ 0.7 then r.similarity
      else calculateHybridScore r.similarity
        ((calculateKeywordScore (extractKeywords query) r.data.content : ℚ) : ℝ)
        (some 0.8)) ∧
    ∃ ctx cands ccands,
      retrieveContext gen (.success mems) (.success chunks) config query options =
        .success ctx ∧
      findTopSimilar emb (mems.map (fun m => ⟨m.id, m.embedding, m⟩))
        (resolvedMemoryTopK config options) = .ok cands ∧
      findTopSimilar emb (chunks.map (fun c => ⟨c.id, c.embedding, c⟩))
        (resolvedSummaryTopK config options) = .ok ccands ∧
      (∀ p ∈ ctx.memories, resolvedMinRelevance config options ≤ p.similarity ∧
        ∃ r ∈ cands, p.memory = r.data ∧
          p.similarity = (hybridRescore (extractKeywords query) r).hybridScore) ∧
      (∀ r ∈ cands, resolvedMinRelevance config options ≤
          (hybridRescore (extractKeywords query) r).hybridScore →
        ∃ p ∈ ctx.memories, p.memory = r.data ∧
          p.similarity = (hybridRescore (extractKeywords query) r).hybridScore) ∧
      ctx.memories.Pairwise (fun x y => y.similarity ≤ x.similarity) ∧
      ctx.summaryChunks = (ccands.filter
          (fun r => decide (r.similarity ≥ resolvedMinRelevance config options))).map
        (fun r => ChunkWithScore.mk r.data r.similarity) := by
  refine ⟨fun r => rfl, ?_⟩
  obtain ⟨cands, hcands⟩ := findTopSimilar_ok emb
    (mems.map (fun m => ⟨m.id, m.embedding, m⟩)) (resolvedMemoryTopK config options)
    (mapped_dims emb mems (fun m => m.embedding) (fun m => m.id) hdm)
  obtain ⟨ccands, hccands⟩ := findTopSimilar_ok emb
    (chunks.map (fun c => ⟨c.id, c.embedding, c⟩)) (resolvedSummaryTopK config options)
    (mapped_dims emb chunks (fun c => c.embedding) (fun c => c.id) hdc)
  have hmr : (if mems.length > 0 then
      findTopSimilar emb (mems.map (fun m => ⟨m.id, m.embedding, m⟩))
        (resolvedMemoryTopK config options) else .ok []) = .ok cands := by
    rw [topStep_eq]
    exact hcands
  have hcr : (if chunks.length > 0 then
      findTopSimilar emb (chunks.map (fun c => ⟨c.id, c.embedding, c⟩))
        (resolvedSummaryTopK config options) else .ok []) = .ok ccands := by
    rw [topStep_eq]
    exact hccands
  refine ⟨_, cands, ccands,
    retrieveContext_eq_success gen _ _ config query options emb mems chunks cands ccands hg
      rfl rfl hmr hcr,
    hcands, hccands, ?_, ?_, ?_, rfl⟩
  · intro p hp
    dsimp only at hp
    obtain ⟨hr, hhr, rfl⟩ := List.mem_map.mp hp
    obtain ⟨h1, h2⟩ := List.mem_filter.mp hhr
    obtain ⟨r, hrc, rfl⟩ := List.mem_map.mp (List.mem_mergeSort.mp h1)
    simp only [decide_eq_true_eq, ge_iff_le] at h2
    exact ⟨h2, r, hrc, rfl, rfl⟩
  · intro r hrc hpass
    refine ⟨MemoryWithScore.mk (hybridRescore (extractKeywords query) r).entry.data
      (hybridRescore (extractKeywords query) r).hybridScore, ?_, rfl, rfl⟩
    dsimp only
    apply List.mem_map.mpr
    refine ⟨hybridRescore (extractKeywords query) r, ?_, rfl⟩
    apply List.mem_filter.mpr
    refine ⟨List.mem_mergeSort.mpr (List.mem_map.mpr ⟨r, hrc, rfl⟩), ?_⟩
    simp only [decide_eq_true_eq, ge_iff_le]
    exact hpass
  · dsimp only
    have hs := @List.sorted_mergeSort _ hybridDescLe hybridDescLe_trans hybridDescLe_total
      (cands.map (hybridRescore (extractKeywords query)))
    have hs2 := List.Pairwise.sublist
      (@List.filter_sublist _
        (fun r => decide (r.hybridScore ≥ resolvedMinRelevance config options))
        ((cands.map (hybridRescore (extractKeywords query))).mergeSort hybridDescLe)) hs
    rw [List.pairwise_map]
    exact hs2.imp (fun hb => by
      simpa [hybridDescLe, decide_eq_true_eq] using hb)

/-- Concrete instantiation of `retrieveContext_hybrid_spec`. -/
theorem retrieveContext_hybrid_spec_witness :
    (∀ r : ScoredEntry Memory, (hybridRescore (extractKeywords "q") r).hybridScore =
      if r.similarity ≥ 0.7 then r.similarity
      else calculateHybridScore r.similarity
        ((calculateKeywordScore (extractKeywords "q") r.data.content : ℚ) : ℝ)
        (some 0.8)) ∧
    ∃ ctx cands ccands,
      retrieveContext (fun _ => .success [(1:ℝ)])
        (.success [⟨"m1", "User is a Python developer", [(1:ℝ)], 0⟩]) (.success [])
        ⟨10, 0.65⟩ "q" none = .success ctx ∧
      findTopSimilar [(1:ℝ)]
        (([⟨"m1", "User is a Python developer", [(1:ℝ)], 0⟩] : List Memory).map
          (fun m => ⟨m.id, m.embedding, m⟩)) (resolvedMemoryTopK ⟨10, 0.65⟩ none) = .ok cands ∧
      findTopSimilar [(1:ℝ)]
        (([] : List SummaryChunk).map (fun c => ⟨c.id, c.embedding, c⟩))
        (resolvedSummaryTopK ⟨10, 0.65⟩ none) = .ok ccands ∧
      (∀ p ∈ ctx.memories, resolvedMinRelevance ⟨10, 0.65⟩ none ≤ p.similarity ∧
        ∃ r ∈ cands, p.memory = r.data ∧
          p.similarity = (hybridRescore (extractKeywords "q") r).hybridScore) ∧
      (∀ r ∈ cands, resolvedMinRelevance ⟨10, 0.65⟩ none ≤
          (hybridRescore (extractKeywords "q") r).hybridScore →
        ∃ p ∈ ctx.memories, p.memory = r.data ∧
          p.similarity = (hybridRescore (extractKeywords "q") r).hybridScore) ∧
      ctx.memories.Pairwise (fun x y => y.similarity ≤ x.similarity) ∧
      ctx.summaryChunks = (ccands.filter
          (fun r => decide (r.similarity ≥ resolvedMinRelevance ⟨10, 0.65⟩ none))).map
        (fun r => ChunkWithScore.mk r.data r.similarity) :=
  retrieveContext_hybrid_spec (fun _ => .success [(1:ℝ)]) ⟨10, 0.65⟩ "q" none [(1:ℝ)]
    [⟨"m1", "User is a Python developer", [(1:ℝ)], 0⟩] [] rfl (by simp) (by simp)

end Momory
